import Mathlib

/-
Verification of the Sulfuric toolkit (src/main.py): a minimal HTTP-style
server (wire codec, router, response writer, connection handler) plus a
flat-file table store (`Database`).

Shallow embedding conventions:
- Python dicts are association lists with first-match lookup; insertion
  replaces the value of an existing key in place (Python dicts keep
  insertion order) and appends new keys at the end.  States produced by
  the modelled operations never contain duplicate keys, matching Python.
- The filesystem is a single mapping from path strings to JSON file
  contents (`Database.disk`).  `json.dump` to a file followed by
  `json.load` is the identity on the JSON data model, so files store
  `Json` values directly; numbers are modelled as integers.
- `os.path.join` is modelled including the POSIX rule that an absolute
  second component discards the first.  Path normalisation performed by
  the operating system (`..`, symlinks) is not modelled.
- The stream writer is modelled as an event trace: the sequence of
  `write`/`drain`/`close` calls issued on the connection.
-/

set_option autoImplicit false

/-! ## Definitions: shallow embedding of src/main.py -/

/-- JSON values as produced by Python's `json` module (numbers restricted
to integers; floating point is out of scope). -/
inductive Json where
  | null
  | bool (b : Bool)
  | num (n : Int)
  | str (s : String)
  | arr (elts : List Json)
  | obj (fields : List (String × Json))

/-- First-match lookup in an association list, as Python dict lookup
(states built by the modelled operations have unique keys). -/
def dlookup {α : Type} : List (String × α) → String → Option α
  | [], _ => none
  | (k', v) :: rest, k => if k' = k then some v else dlookup rest k

/-- Python dict assignment `d[k] = v`: replace in place if the key is
present, else append (insertion order). -/
def dictInsert {α : Type} : List (String × α) → String → α → List (String × α)
  | [], k, v => [(k, v)]
  | (k', v') :: rest, k, v =>
      if k' = k then (k, v) :: rest else (k', v') :: dictInsert rest k v

/-- Python dict removal `d.pop(k, None)` (on duplicate-free lists this
removes the unique entry for `k`, if any). -/
def dErase {α : Type} : List (String × α) → String → List (String × α)
  | [], _ => []
  | e :: rest, k => if e.1 = k then dErase rest k else e :: dErase rest k

/-- The string starts with the path separator, i.e. is absolute. -/
def strStartsWithSlash (s : String) : Bool :=
  match s.data.head? with
  | some c => c == '/'
  | none => false

/-- The string ends with the path separator. -/
def strEndsWithSlash (s : String) : Bool :=
  match s.data.getLast? with
  | some c => c == '/'
  | none => false

/-- POSIX `os.path.join a b`: an absolute `b` discards `a`; otherwise a
separator is inserted unless `a` is empty or already ends with one. -/
def pathJoin (a b : String) : String :=
  if strStartsWithSlash b then b
  else if a = "" then b
  else if strEndsWithSlash a then a ++ b
  else a ++ "/" ++ b

/-- Path of a table's `keys` subdirectory: `os.path.join(base, table, 'keys')`. -/
def keysDirPath (base table : String) : String :=
  pathJoin (pathJoin base table) "keys"

/-- Path of a stored value: `os.path.join(keys_path, f"{key}.json")`. -/
def keyFilePath (base table key : String) : String :=
  pathJoin (keysDirPath base table) (key ++ ".json")

/-- Path of a table's index: `os.path.join(base, table, 'index.json')`. -/
def indexFilePath (base table : String) : String :=
  pathJoin (pathJoin base table) "index.json"

/-- POSIX `os.path.dirname`: everything before the last separator, with
trailing separators stripped unless the head is nothing but separators. -/
def dirName (p : String) : String :=
  let revHead := p.data.reverse.dropWhile (fun c => c != '/')
  if revHead.isEmpty then ""
  else if revHead.all (fun c => c == '/') then String.mk revHead.reverse
  else String.mk ((revHead.dropWhile (fun c => c == '/')).reverse)

/-- Worker for `os.makedirs`: record the directory and walk up through
its ancestors (the fuel bounds the ascent; one ancestor is at least one
character shorter, so the path length suffices). -/
def makeDirsGo : Nat → String → List String → List String
  | 0, _, dirs => dirs
  | fuel + 1, p, dirs => if p = "" then dirs else makeDirsGo fuel (dirName p) (p :: dirs)

/-- `os.makedirs(p, exist_ok=True)`: afterwards `p` and all its
ancestors exist as directories. -/
def makeDirs (dirs : List String) (p : String) : List String :=
  makeDirsGo (p.data.length + 1) p dirs

/-- State of the `Database` class together with the files it owns:
`tables` is the in-memory index (`table -> key -> file path`), `disk`
maps a file path to the JSON content most recently dumped there, and
`dirs` is the set of directories existing on disk (the constructor's
`os.makedirs(base_path)` and each `set`'s `os.makedirs(keys_path)`
create them; nothing ever removes a directory). -/
structure Database where
  tables : List (String × List (String × String))
  disk : List (String × Json)
  dirs : List String

/-- `json.dump` of an index mapping: a JSON object whose fields are the
keys mapped to their file-path strings. -/
def encodeIndex (idx : List (String × String)) : Json :=
  .obj (idx.map (fun e => (e.1, .str e.2)))

/-- `Database.__save_index(table)`: rewrite the table's `index.json` from
the current in-memory mapping. -/
def saveIndex (base table : String) (tables : List (String × List (String × String)))
    (disk : List (String × Json)) : List (String × Json) :=
  dictInsert disk (indexFilePath base table) (encodeIndex ((dlookup tables table).getD []))

/-- `Database.set(table, key, value)`: ensure the table's `keys`
directory exists (`os.makedirs` also creates its ancestors), then write
the value file.  `open(file_path, 'w')` raises `FileNotFoundError`
(modelled as `none`) when the file's parent directory does not exist —
which happens exactly when the key contains `/` and the intermediate
directories under `keys/` were never created.  On success, bind the key
to that path in the in-memory index (creating the table if new), then
unconditionally persist the table's index.  (The directories created
before a failed write do survive in reality, but no claim observes a
state after a failed `set`; directory/file name collisions are not
modelled.) -/
def Database.set (db : Database) (base table key : String) (v : Json) : Option Database :=
  let dirs1 := makeDirs db.dirs (keysDirPath base table)
  let fp := keyFilePath base table key
  if dirName fp ∈ dirs1 then
    let disk1 := dictInsert db.disk fp v
    let tbl := (dlookup db.tables table).getD []
    let tables1 := dictInsert db.tables table (dictInsert tbl key fp)
    some { tables := tables1, disk := saveIndex base table tables1 disk1, dirs := dirs1 }
  else none

/-- `Database.get(table, key)`: `None` for an unknown table, unknown key,
falsy (empty) path, or a path with no file on disk; otherwise the JSON
loaded from the value file. -/
def Database.get (db : Database) (table key : String) : Option Json :=
  match dlookup db.tables table with
  | none => none
  | some idx =>
      match dlookup idx key with
      | none => none
      | some p => if p = "" then none else dlookup db.disk p

/-- `Database.delete(table, key)`: pop the key from the in-memory index;
only when the popped path is truthy and its file exists, remove the file
and persist the index. -/
def Database.delete (db : Database) (base table key : String) : Database :=
  match dlookup db.tables table with
  | none => db
  | some idx =>
      let tables1 := dictInsert db.tables table (dErase idx key)
      match dlookup idx key with
      | none => { db with tables := tables1 }
      | some p =>
          if p ≠ "" ∧ (dlookup db.disk p).isSome then
            { db with tables := tables1, disk := saveIndex base table tables1 (dErase db.disk p) }
          else { db with tables := tables1 }

/-- The in-memory index mapping of one table (empty for an unknown table). -/
def memIndex (db : Database) (table : String) : List (String × String) :=
  (dlookup db.tables table).getD []

/-- The content of the table's `index.json` on disk, if the file exists. -/
def diskIndex (db : Database) (base table : String) : Option Json :=
  dlookup db.disk (indexFilePath base table)

/-- Concrete run exercising the `os.path.join` collision: with table `/t`
and key `/t/index`, the value file and `index.json` are the same path
(`makedirs("/t/keys")` creates `/t`, so the write itself succeeds). -/
def dbC2 : Database :=
  (Database.set ⟨[], [], makeDirs [] "./db/"⟩ "./db/" "/t" "/t/index" (Json.num 1)).getD
    ⟨[], [], []⟩

/-- Concrete run for C5: the same path collision, before the `delete`. -/
def dbC5a : Database :=
  (Database.set ⟨[], [], makeDirs [] "./db/"⟩ "./db/" "/t" "/t/index" (Json.num 1)).getD
    ⟨[], [], []⟩

/-- Concrete run for C5: the path collision, followed by `delete`. -/
def dbC5 : Database := dbC5a.delete "./db/" "/t" "/t/index"

/-- Concrete run for C1, step 1: key `y` of table `a/keys/x` stores its
value at `./db/a/keys/x/keys/y.json`, with `makedirs` creating that
whole directory chain first. -/
def dbC1a : Database :=
  (Database.set ⟨[], [], makeDirs [] "./db/"⟩ "./db/" "a/keys/x" "y" (Json.num 2)).getD
    ⟨[], [], []⟩

/-- Concrete run for C1, step 2: key `x/keys/y` of table `a` aliases the
very same value-file path; the write succeeds because step 1 already
created `./db/a/keys/x/keys`. -/
def dbC1b : Database :=
  (dbC1a.set "./db/" "a" "x/keys/y" (Json.num 1)).getD ⟨[], [], []⟩

/-- Concrete run for C1, step 3: deleting the alias removes the shared
file, leaving table `a`'s index entry dangling. -/
def dbC1c : Database := dbC1b.delete "./db/" "a/keys/x" "y"

/-- Concrete run for C1, step 4: deleting the dangling key of table `a`
pops it from memory but does not persist the index. -/
def dbC1d : Database := dbC1c.delete "./db/" "a" "x/keys/y"

/-- Concrete `set` result for the C1 witness. -/
def dbC1w : Database :=
  (Database.set ⟨[("t", [("k", "p1")])], [("p1", Json.num 5)], []⟩ "./db/" "t" "k2"
    (Json.num 7)).getD ⟨[], [], []⟩

/-- One argument of a `writer.write` call: UTF-8 encoded text or raw file
bytes. -/
inductive Chunk where
  | str (s : String)
  | bytes (bs : List Nat)

/-- One observable call on the connection's stream writer. -/
inductive WEv where
  | write (c : Chunk)
  | drain
  | close

/-- `f"HTTP/1.1 {status_code} OK\r\n"`. -/
def statusLine (code : Nat) : String := "HTTP/1.1 " ++ toString code ++ " OK\r\n"

/-- `f"Content-Type: {t}\r\nContent-Length: {n}\r\n\r\n"`. -/
def contentHeaders (ct : String) (len : Nat) : String :=
  "Content-Type: " ++ ct ++ "\r\nContent-Length: " ++ toString len ++ "\r\n\r\n"

/-- `Response.send(body, status_code, content_type)`: one write of the
whole response, a drain, then a close. -/
def Response.send (body : String) (code : Nat) (ct : String) (tr : List WEv) : List WEv :=
  tr ++ [.write (.str (statusLine code ++ contentHeaders ct body.utf8ByteSize ++ body)),
    .drain, .close]

/-- `Response.sendFile(file_path, content_type)` against the filesystem
`fs` (path to raw bytes): on success three writes and a drain; on a
missing file the whole `send` of a 404; the `finally` block closes in
both branches. -/
def Response.sendFile (fs : List (String × List Nat)) (path ct : String)
    (tr : List WEv) : List WEv :=
  match dlookup fs path with
  | some content =>
      tr ++ [.write (.str (statusLine 200)), .write (.str (contentHeaders ct content.length)),
        .write (.bytes content), .drain, .close]
  | none => Response.send "File not found" 404 "text/plain" tr ++ [.close]

/-- Number of `close` calls in a trace. -/
def countClose (tr : List WEv) : Nat :=
  tr.countP (fun e => match e with | .close => true | _ => false)

/-- Python `s.split(sep)` on character lists (fuel = length of the
input, which one character per step makes sufficient). -/
def splitGo (sep : List Char) : Nat → List Char → List Char → List (List Char)
  | 0, cs, acc => [acc.reverse ++ cs]
  | fuel + 1, cs, acc =>
      match cs with
      | [] => [acc.reverse]
      | c :: cs' =>
          if sep.isPrefixOf cs then acc.reverse :: splitGo sep fuel (cs.drop sep.length) []
          else splitGo sep fuel cs' (c :: acc)

/-- Python `s.split(sep)` for a nonempty separator. -/
def splitOnStr (sep s : String) : List String :=
  if sep = "" then [s] else (splitGo sep.data s.data.length s.data []).map (fun cs => String.mk cs)

/-- Python `sep.join(xs)`. -/
def strJoin (sep : String) : List String → String
  | [] => ""
  | x :: rest => rest.foldl (fun acc y => acc ++ sep ++ y) x

/-- One header line: `if ": " in line: key, value = line.split(": ", 1)`;
lines without `": "` produce nothing. -/
def parseHeaderLine (l : String) : Option (String × String) :=
  match splitOnStr ": " l with
  | key :: r1 :: rs => some (key, strJoin ": " (r1 :: rs))
  | _ => none

/-- `Server.__parse_request`: split on CRLF; first line is the request
line; subsequent nonempty lines up to the first blank are header
assignments (later duplicates overwrite); the rest, rejoined with CRLF,
is the body. -/
def parseRequest (text : String) : String × List (String × String) × String :=
  let lines := splitOnStr "\r\n" text
  let requestLine := lines.headD ""
  let hdrLines := (lines.drop 1).takeWhile (fun l => l != "")
  let headers := (hdrLines.filterMap parseHeaderLine).foldl (fun hs e => dictInsert hs e.1 e.2) []
  let body := strJoin "\r\n" ((lines.drop 1).drop (hdrLines.length + 1))
  (requestLine, headers, body)

/-- The header assignments of a raw request, in wire order. -/
def headerPairs (text : String) : List (String × String) :=
  (((splitOnStr "\r\n" text).drop 1).takeWhile (fun l => l != "")).filterMap parseHeaderLine

/-- The value of the last header line carrying the key, if any (the
claim-side description of "later occurrences overwrite earlier ones"). -/
def lastHeaderValue : List (String × String) → String → Option String
  | [], _ => none
  | e :: rest, k =>
      match lastHeaderValue rest k with
      | some v => some v
      | none => if e.1 = k then some e.2 else none

/-- One piece of a compiled route pattern: a literal character, or a
named capture produced from `[name]` (matching one or more non-`/`
characters, as `(?P<name>[^/]+)`). -/
inductive Seg where
  | lit (c : Char)
  | cap (name : String)

/-- A `\w` character (ASCII reading of Python's word character). -/
def isWordChar (c : Char) : Bool := c.isAlphanum || c == '_'

/-- Scanner for `re.sub` of bracket groups: replaces each leftmost
`[name]` (nonempty word name) by a capture and keeps every other
character literal; a `[` that does not open a well-formed group stays
literal and scanning resumes right after it, as `re.sub` does.  Faithful
to the compiled regex for patterns whose residual literal characters
carry no regex metacharacter. -/
def compileGo : Option (List Char) → List Char → List Seg
  | none, [] => []
  | none, c :: cs => if c = '[' then compileGo (some []) cs else .lit c :: compileGo none cs
  | some acc, [] => .lit '[' :: (acc.reverse.map Seg.lit)
  | some acc, c :: cs =>
      if c = ']' ∧ acc ≠ [] then .cap (String.mk acc.reverse) :: compileGo none cs
      else if isWordChar c then compileGo (some (c :: acc)) cs
      else if c = '[' then .lit '[' :: (acc.reverse.map Seg.lit) ++ compileGo (some []) cs
      else .lit '[' :: (acc.reverse.map Seg.lit) ++ .lit c :: compileGo none cs

/-- Pattern compilation performed by `Server.on`. -/
def compile (path : String) : List Seg := compileGo none path.data

/-- Candidate capture end positions `[n-1, ..., 0]`, longest first
(greedy `[^/]+`). -/
def countdown : Nat → List Nat
  | 0 => []
  | n + 1 => n :: countdown n

/-- Anchored match of a compiled pattern against a path, with Python's
greedy backtracking order for `[^/]+` captures and `$` also accepting a
single trailing newline; returns the named captures in group order
(`match.groupdict()`). -/
def segsMatch : List Seg → List Char → Option (List (String × String))
  | [], cs => if cs = [] ∨ cs = ['\n'] then some [] else none
  | .lit c :: rest, cs =>
      match cs with
      | [] => none
      | c' :: cs' => if c = c' then segsMatch rest cs' else none
  | .cap n :: rest, cs =>
      (countdown cs.length).findSome? (fun i =>
        if (cs.take (i + 1)).all (fun c => c != '/') then
          (segsMatch rest (cs.drop (i + 1))).map (fun ps => (n, String.mk (cs.take (i + 1))) :: ps)
        else none)

/-- One registered route: `(method, regex, func)` with the handler
abstracted to an identifier. -/
structure Route where
  method : String
  pattern : List Seg
  handler : Nat

/-- `Server.on(path, method)` applied to a handler: append the compiled
route, preserving registration order. -/
def Server.on (routes : List Route) (path method : String) (h : Nat) : List Route :=
  routes ++ [{ method := method, pattern := compile path, handler := h }]

/-- The route-dispatch loop of `Server.__handle_client`: first route in
registration order whose method equals the request method and whose
pattern matches the path. -/
def findRoute : List Route → String → String → Option (Nat × List (String × String))
  | [], _, _ => none
  | r :: rs, method, path =>
      if r.method = method then
        match segsMatch r.pattern path.data with
        | some ps => some (r.handler, ps)
        | none => findRoute rs method path
      else findRoute rs method path

/-- A route accepts the request: exact method equality and a full pattern
match. -/
def routeMatches (r : Route) (method path : String) : Prop :=
  r.method = method ∧ (segsMatch r.pattern path.data).isSome = true

/-- Outcome of one connection, with handler invocation abstracted (the
matched handler owns the response from then on). -/
inductive HandleResult where
  | closedNoData
  | closedMalformed
  | dispatched (handler : Nat) (params : List (String × String))
  | notFound

/-- `Server.__handle_client` on the decoded bytes of the single read:
empty read closes silently; a request line with fewer than three
space-separated tokens closes silently; otherwise dispatch, or a 404
response when no route matches. -/
def Server.handleClient (routes : List Route) (data : String) (tr : List WEv) :
    HandleResult × List WEv :=
  if data = "" then (.closedNoData, tr ++ [.close])
  else
    let parsed := parseRequest data
    let parts := splitOnStr " " parsed.1
    if parts.length < 3 then (.closedMalformed, tr ++ [.close])
    else
      match findRoute routes (parts.headD "") (parts.getD 1 "") with
      | some r => (.dispatched r.1 r.2, tr)
      | none => (.notFound, Response.send "404 Not Found" 404 "text/plain" tr)

/-- A character that the compiled pattern treats as a literal matching
itself (no regex metacharacter, no bracket); the spec's path patterns
are literal paths made of such characters plus bracketed segments. -/
def plainChar (c : Char) : Bool :=
  c.isAlphanum || c == '/' || c == '-' || c == '_' || c == '~' || c == ':' || c == ','

/-! ## Theorems -/

@[simp] theorem dlookup_dictInsert_self {α : Type} (m : List (String × α)) (k : String) (v : α) :
    dlookup (dictInsert m k v) k = some v := by
  induction m with
  | nil => simp [dictInsert, dlookup]
  | cons e rest ih =>
      obtain ⟨a, b⟩ := e
      by_cases h : a = k
      · simp [dictInsert, dlookup, h]
      · simp [dictInsert, dlookup, h, ih]

@[simp] theorem dlookup_dErase_self {α : Type} (m : List (String × α)) (k : String) :
    dlookup (dErase m k) k = none := by
  induction m with
  | nil => rfl
  | cons e rest ih =>
      obtain ⟨a, b⟩ := e
      by_cases he : a = k
      · simpa [dErase, he] using ih
      · simp [dErase, dlookup, he, ih]

theorem dlookup_dictInsert_ne {α : Type} (m : List (String × α)) (k k' : String) (v : α)
    (h : k' ≠ k) : dlookup (dictInsert m k v) k' = dlookup m k' := by
  have hk : ¬(k = k') := fun hh => h hh.symm
  induction m with
  | nil => simp [dictInsert, dlookup, hk]
  | cons e rest ih =>
      obtain ⟨a, b⟩ := e
      by_cases he : a = k
      · subst he
        simp [dictInsert, dlookup, hk]
      · by_cases ha : a = k'
        · simp [dictInsert, dlookup, he, ha, h]
        · simp [dictInsert, dlookup, he, ha, ih]

theorem dictInsert_lookup_eq {α : Type} (m : List (String × α)) (k : String) (v : α)
    (h : dlookup m k = some v) : dictInsert m k v = m := by
  induction m with
  | nil => simp [dlookup] at h
  | cons e rest ih =>
      obtain ⟨a, b⟩ := e
      by_cases he : a = k
      · subst he
        simp [dlookup] at h
        simp [dictInsert, h]
      · simp [dlookup, he] at h
        simp [dictInsert, he, ih h]

theorem dErase_lookup_none {α : Type} (m : List (String × α)) (k : String)
    (h : dlookup m k = none) : dErase m k = m := by
  induction m with
  | nil => rfl
  | cons e rest ih =>
      obtain ⟨a, b⟩ := e
      by_cases he : a = k
      · simp [dlookup, he] at h
      · simp [dlookup, he] at h
        simp [dErase, he, ih h]

theorem dlookup_dErase_ne {α : Type} (m : List (String × α)) (k k' : String) (h : k' ≠ k) :
    dlookup (dErase m k) k' = dlookup m k' := by
  have hk : ¬(k = k') := fun hh => h hh.symm
  induction m with
  | nil => rfl
  | cons e rest ih =>
      obtain ⟨a, b⟩ := e
      by_cases he : a = k
      · have ha : ¬(a = k') := by rw [he]; exact hk
        simp [dErase, dlookup, he, ha, hk, ih]
      · by_cases ha : a = k'
        · simp [dErase, dlookup, he, ha, h]
        · simp [dErase, dlookup, he, ha, ih]

theorem append_ne_empty_right (a b : String) (hb : b ≠ "") : a ++ b ≠ "" := by
  intro h
  apply hb
  have hd := congrArg String.data h
  rw [String.data_append] at hd
  have h2 := List.append_eq_nil.mp hd
  apply String.ext
  rw [h2.2]

theorem pathJoin_ne_empty (a b : String) (hb : b ≠ "") : pathJoin a b ≠ "" := by
  unfold pathJoin
  by_cases h1 : strStartsWithSlash b = true
  · rw [if_pos h1]
    exact hb
  · rw [if_neg h1]
    by_cases h2 : a = ""
    · rw [if_pos h2]
      exact hb
    · rw [if_neg h2]
      by_cases h3 : strEndsWithSlash a = true
      · rw [if_pos h3]
        exact append_ne_empty_right a b hb
      · rw [if_neg h3]
        exact append_ne_empty_right (a ++ "/") b hb

theorem pathJoin_abs (a b : String) (hb : strStartsWithSlash b = true) :
    pathJoin a b = b := by
  unfold pathJoin
  rw [if_pos hb]

theorem pathJoin_empty_left (b : String) (hb : strStartsWithSlash b = false) :
    pathJoin "" b = b := by
  unfold pathJoin
  rw [if_neg (by simp [hb]), if_pos rfl]

theorem pathJoin_endSlash (a b : String) (hb : strStartsWithSlash b = false)
    (ha1 : a ≠ "") (ha2 : strEndsWithSlash a = true) : pathJoin a b = a ++ b := by
  unfold pathJoin
  rw [if_neg (by simp [hb]), if_neg ha1, if_pos ha2]

theorem pathJoin_plain (a b : String) (hb : strStartsWithSlash b = false)
    (ha1 : a ≠ "") (ha2 : strEndsWithSlash a = false) : pathJoin a b = a ++ "/" ++ b := by
  unfold pathJoin
  rw [if_neg (by simp [hb]), if_neg ha1, if_neg (by simp [ha2])]

theorem strEndsWithSlash_append (a b : String) (hb : b.data ≠ []) :
    strEndsWithSlash (a ++ b) = strEndsWithSlash b := by
  unfold strEndsWithSlash
  rw [String.data_append]
  cases hb' : b.data with
  | nil => exact absurd hb' hb
  | cons c cs => rw [List.getLast?_append_cons]

theorem append_cons_ne (P a b : List Char) (c d : Char) (h : c ≠ d) :
    P ++ c :: a ≠ P ++ d :: b := by
  intro he
  have h2 := List.append_cancel_left he
  injection h2 with h3 _
  exact h h3

/-- The value-file path and the index-file path of one `set`/`delete`
call can only collide when the key (with `.json` appended) is an
absolute path that `os.path.join` lets escape the table directory. -/
theorem keyFilePath_ne_indexFilePath (base t k : String)
    (hk : strStartsWithSlash (k ++ ".json") = false) :
    keyFilePath base t k ≠ indexFilePath base t := by
  have hks : strStartsWithSlash "keys" = false := rfl
  have his : strStartsWithSlash "index.json" = false := rfl
  unfold keyFilePath indexFilePath keysDirPath
  generalize pathJoin base t = T
  by_cases h0 : T = ""
  · subst h0
    rw [pathJoin_empty_left "keys" hks, pathJoin_empty_left "index.json" his]
    rw [pathJoin_plain "keys" (k ++ ".json") hk (by decide) rfl]
    intro h
    have hd := congrArg String.data h
    rw [String.data_append, String.data_append] at hd
    rw [show ("keys" : String).data = ['k', 'e', 'y', 's'] from rfl] at hd
    rw [show ("/" : String).data = ['/'] from rfl] at hd
    rw [List.append_assoc] at hd
    have hd2 : 'k' :: (['e', 'y', 's'] ++ (['/'] ++ (k ++ ".json").data))
        = 'i' :: ("ndex.json" : String).data := hd
    injection hd2 with h1 _
    exact absurd h1 (by decide)
  · have hkeysne : T ++ "keys" ≠ "" := append_ne_empty_right T "keys" (by decide)
    have hkeysend : strEndsWithSlash (T ++ "keys") = false := by
      rw [strEndsWithSlash_append T "keys" (by decide)]
      rfl
    by_cases h3 : strEndsWithSlash T
    · rw [pathJoin_endSlash T "keys" hks h0 h3, pathJoin_endSlash T "index.json" his h0 h3]
      rw [pathJoin_plain (T ++ "keys") (k ++ ".json") hk hkeysne hkeysend]
      intro h
      have hd := congrArg String.data h
      simp only [String.data_append, List.append_assoc] at hd
      have hd2 := List.append_cancel_left hd
      have hd3 : 'k' :: (['e', 'y', 's'] ++ (['/'] ++ (k.data ++ ['.', 'j', 's', 'o', 'n'])))
          = 'i' :: ['n', 'd', 'e', 'x', '.', 'j', 's', 'o', 'n'] := hd2
      injection hd3 with h1 _
      exact absurd h1 (by decide)
    · have hplainne : T ++ "/" ++ "keys" ≠ "" :=
        append_ne_empty_right (T ++ "/") "keys" (by decide)
      have hplainend : strEndsWithSlash (T ++ "/" ++ "keys") = false := by
        rw [String.append_assoc, strEndsWithSlash_append T ("/" ++ "keys") (by decide)]
        rfl
      rw [pathJoin_plain T "keys" hks h0 (by simpa using h3),
        pathJoin_plain T "index.json" his h0 (by simpa using h3)]
      rw [pathJoin_plain (T ++ "/" ++ "keys") (k ++ ".json") hk hplainne hplainend]
      intro h
      have hd := congrArg String.data h
      simp only [String.data_append, List.append_assoc] at hd
      have hd2 := List.append_cancel_left hd
      have hd3 : '/' :: (['k', 'e', 'y', 's'] ++ (['/'] ++ (k.data ++ ['.', 'j', 's', 'o', 'n'])))
          = '/' :: ['i', 'n', 'd', 'e', 'x', '.', 'j', 's', 'o', 'n'] := hd2
      injection hd3 with _ h1
      have hd4 : 'k' :: (['e', 'y', 's'] ++ (['/'] ++ (k.data ++ ['.', 'j', 's', 'o', 'n'])))
          = 'i' :: ['n', 'd', 'e', 'x', '.', 'j', 's', 'o', 'n'] := h1
      injection hd4 with h2 _
      exact absurd h2 (by decide)

theorem startsSlash_append_json_false (k : String)
    (h : k.data.all (fun c => c != '/') = true) :
    strStartsWithSlash (k ++ ".json") = false := by
  unfold strStartsWithSlash
  rw [String.data_append]
  cases hc : k.data with
  | nil => rfl
  | cons c cs =>
      rw [hc] at h
      simp only [List.all_cons, Bool.and_eq_true] at h
      simp only [List.cons_append, List.head?_cons]
      simpa using h.1

theorem keyFilePath_ne_empty (base table key : String) : keyFilePath base table key ≠ "" := by
  unfold keyFilePath
  exact pathJoin_ne_empty _ _ (append_ne_empty_right key ".json" (by decide))

theorem no_slash_starts (k : String) (h : k.data.all (fun c => c != '/') = true) :
    strStartsWithSlash (k ++ ".json") = false :=
  startsSlash_append_json_false k h

theorem dropWhile_append_all (p : Char → Bool) (l1 l2 : List Char)
    (h : ∀ c ∈ l1, p c = true) :
    (l1 ++ l2).dropWhile p = l2.dropWhile p := by
  induction l1 with
  | nil => rfl
  | cons c l1' ih =>
      rw [List.cons_append, List.dropWhile_cons, if_pos (h c (List.mem_cons_self c l1'))]
      exact ih (fun c2 h2 => h c2 (List.mem_cons_of_mem _ h2))

theorem keysDirPath_ne_empty (base table : String) : keysDirPath base table ≠ "" := by
  unfold keysDirPath
  exact pathJoin_ne_empty _ _ (by decide)

theorem keysDirPath_not_endSlash (base table : String) :
    strEndsWithSlash (keysDirPath base table) = false := by
  unfold keysDirPath
  generalize pathJoin base table = T
  by_cases h0 : T = ""
  · subst h0
    rw [pathJoin_empty_left "keys" rfl]
    decide
  · by_cases h3 : strEndsWithSlash T = true
    · rw [pathJoin_endSlash T "keys" rfl h0 h3, strEndsWithSlash_append T "keys" (by decide)]
      decide
    · rw [pathJoin_plain T "keys" rfl h0 (by simpa using h3)]
      rw [String.append_assoc, strEndsWithSlash_append T ("/" ++ "keys") (by decide)]
      decide

theorem dirName_append (d x : String)
    (hx2 : ∀ c ∈ x.data, (c != '/') = true)
    (hd1 : d.data ≠ []) (hd2 : strEndsWithSlash d = false) :
    dirName (d ++ "/" ++ x) = d := by
  cases hrev : d.data.reverse with
  | nil =>
      rw [List.reverse_eq_nil_iff] at hrev
      exact absurd hrev hd1
  | cons c0 rest =>
      have hlast : d.data.getLast? = some c0 := by
        rw [← List.head?_reverse, hrev]
        rfl
      have hc0 : (c0 == '/') = false := by
        unfold strEndsWithSlash at hd2
        rw [hlast] at hd2
        exact hd2
      have hdata : (d ++ "/" ++ x).data.reverse = x.data.reverse ++ ('/' :: d.data.reverse) := by
        simp [String.data_append, List.reverse_append]
      have hdrop : (d ++ "/" ++ x).data.reverse.dropWhile (fun c => c != '/')
          = '/' :: c0 :: rest := by
        rw [hdata, dropWhile_append_all _ _ _ (fun c hc => hx2 c (List.mem_reverse.mp hc))]
        rw [List.dropWhile_cons, if_neg (by simp), hrev]
      unfold dirName
      rw [hdrop]
      have hne1 : ¬((('/' :: c0 :: rest : List Char).isEmpty) = true) := by simp
      have hall : ¬((('/' :: c0 :: rest : List Char).all (fun c => c == '/')) = true) := by
        simp [hc0]
      rw [if_neg hne1, if_neg hall]
      have hslash : (('/' : Char) == '/') = true := by decide
      have hdrop2 : ('/' :: c0 :: rest : List Char).dropWhile (fun c => c == '/')
          = c0 :: rest := by
        rw [List.dropWhile_cons, if_pos hslash, List.dropWhile_cons, if_neg (by simp [hc0])]
      rw [hdrop2, ← hrev, List.reverse_reverse]

theorem dirName_keyFilePath (base table key : String)
    (h : key.data.all (fun c => c != '/') = true) :
    dirName (keyFilePath base table key) = keysDirPath base table := by
  have heq : keyFilePath base table key
      = keysDirPath base table ++ "/" ++ (key ++ ".json") := by
    unfold keyFilePath
    exact pathJoin_plain _ _ (no_slash_starts key h) (keysDirPath_ne_empty base table)
      (keysDirPath_not_endSlash base table)
  rw [heq]
  apply dirName_append
  · intro c hc
    rw [String.data_append] at hc
    cases List.mem_append.mp hc with
    | inl h1 => exact (List.all_eq_true.mp h) c h1
    | inr h2 => exact (by decide : ∀ c2 ∈ (".json" : String).data, (c2 != '/') = true) c h2
  · intro hc
    exact keysDirPath_ne_empty base table (String.ext (by rw [hc]))
  · exact keysDirPath_not_endSlash base table

theorem mem_makeDirsGo (fuel : Nat) : ∀ (p : String) (dirs : List String) (x : String),
    x ∈ dirs → x ∈ makeDirsGo fuel p dirs := by
  induction fuel with
  | zero =>
      intro p dirs x hx
      exact hx
  | succ fuel ih =>
      intro p dirs x hx
      show x ∈ (if p = "" then dirs else makeDirsGo fuel (dirName p) (p :: dirs))
      by_cases hp : p = ""
      · rw [if_pos hp]
        exact hx
      · rw [if_neg hp]
        exact ih (dirName p) (p :: dirs) x (List.mem_cons_of_mem p hx)

theorem self_mem_makeDirs (dirs : List String) (p : String) (hp : p ≠ "") :
    p ∈ makeDirs dirs p := by
  show p ∈ (if p = "" then dirs else makeDirsGo p.data.length (dirName p) (p :: dirs))
  rw [if_neg hp]
  exact mem_makeDirsGo _ _ _ _ (List.mem_cons_self p dirs)

theorem set_eq_some (db : Database) (base table key : String) (v : Json)
    (hmem : dirName (keyFilePath base table key) ∈ makeDirs db.dirs (keysDirPath base table)) :
    db.set base table key v = some
      { tables := dictInsert db.tables table
          (dictInsert ((dlookup db.tables table).getD []) key (keyFilePath base table key)),
        disk := saveIndex base table
          (dictInsert db.tables table
            (dictInsert ((dlookup db.tables table).getD []) key (keyFilePath base table key)))
          (dictInsert db.disk (keyFilePath base table key) v),
        dirs := makeDirs db.dirs (keysDirPath base table) } := by
  show (if dirName (keyFilePath base table key) ∈ makeDirs db.dirs (keysDirPath base table) then
      some (Database.mk
        (dictInsert db.tables table
          (dictInsert ((dlookup db.tables table).getD []) key (keyFilePath base table key)))
        (saveIndex base table
          (dictInsert db.tables table
            (dictInsert ((dlookup db.tables table).getD []) key (keyFilePath base table key)))
          (dictInsert db.disk (keyFilePath base table key) v))
        (makeDirs db.dirs (keysDirPath base table)))
    else none) = _
  rw [if_pos hmem]

theorem set_eq_none (db : Database) (base table key : String) (v : Json)
    (hmem : dirName (keyFilePath base table key) ∉ makeDirs db.dirs (keysDirPath base table)) :
    db.set base table key v = none := by
  show (if dirName (keyFilePath base table key) ∈ makeDirs db.dirs (keysDirPath base table) then
      some (Database.mk
        (dictInsert db.tables table
          (dictInsert ((dlookup db.tables table).getD []) key (keyFilePath base table key)))
        (saveIndex base table
          (dictInsert db.tables table
            (dictInsert ((dlookup db.tables table).getD []) key (keyFilePath base table key)))
          (dictInsert db.disk (keyFilePath base table key) v))
        (makeDirs db.dirs (keysDirPath base table)))
    else none) = none
  rw [if_neg hmem]

/-- C2 (amended): for keys containing no `/`, the value-file write of
`set` succeeds (its parent directory is the `keys` directory that
`makedirs` just ensured) and a following `get` returns the stored
value. -/
theorem c2_set_get_roundtrip (db : Database) (base table key : String) (v : Json)
    (h : key.data.all (fun c => c != '/') = true) :
    ∃ db', db.set base table key v = some db' ∧ db'.get table key = some v := by
  have hne : keyFilePath base table key ≠ indexFilePath base table :=
    keyFilePath_ne_indexFilePath base table key (no_slash_starts key h)
  have hfp : keyFilePath base table key ≠ "" := keyFilePath_ne_empty base table key
  have hmem : dirName (keyFilePath base table key)
      ∈ makeDirs db.dirs (keysDirPath base table) := by
    rw [dirName_keyFilePath base table key h]
    exact self_mem_makeDirs _ _ (keysDirPath_ne_empty base table)
  refine ⟨_, set_eq_some db base table key v hmem, ?_⟩
  unfold Database.get saveIndex
  simp only [dlookup_dictInsert_self]
  rw [if_neg hfp]
  rw [dlookup_dictInsert_ne _ _ _ _ hne]
  exact dlookup_dictInsert_self _ _ _

/-- C5 (amended): for keys containing no `/`, `set` succeeds, and
`delete` followed by `get` returns the absence indicator with the value
file gone from disk. -/
theorem c5_delete_removes (db : Database) (base table key : String) (v : Json)
    (h : key.data.all (fun c => c != '/') = true) :
    ∃ db', db.set base table key v = some db' ∧
      (db'.delete base table key).get table key = none ∧
      dlookup ((db'.delete base table key)).disk (keyFilePath base table key) = none := by
  have hne : keyFilePath base table key ≠ indexFilePath base table :=
    keyFilePath_ne_indexFilePath base table key (no_slash_starts key h)
  have hfp : keyFilePath base table key ≠ "" := keyFilePath_ne_empty base table key
  have hmem : dirName (keyFilePath base table key)
      ∈ makeDirs db.dirs (keysDirPath base table) := by
    rw [dirName_keyFilePath base table key h]
    exact self_mem_makeDirs _ _ (keysDirPath_ne_empty base table)
  refine ⟨_, set_eq_some db base table key v hmem, ?_⟩
  unfold Database.delete Database.get saveIndex
  simp only [dlookup_dictInsert_self]
  simp only [dlookup_dictInsert_ne _ _ _ _ hne]
  simp only [dlookup_dictInsert_self, Option.isSome_some]
  rw [if_pos ⟨hfp, trivial⟩]
  simp only [dlookup_dictInsert_self, dlookup_dErase_self]
  refine ⟨trivial, ?_⟩
  simp only [dlookup_dictInsert_ne _ _ _ _ hne]
  exact dlookup_dErase_self _ _

/-- C6 (confirmed): deleting a key that is not in the table's in-memory
index leaves the entire store state (memory and disk) unchanged, so
`index.json` is byte-identical and the call still succeeds. -/
theorem c6_delete_absent_noop (db : Database) (base table key : String)
    (h : (dlookup db.tables table).bind (fun idx => dlookup idx key) = none) :
    db.delete base table key = db := by
  cases ht : dlookup db.tables table with
  | none =>
      unfold Database.delete
      rw [ht]
  | some idx =>
      rw [ht] at h
      simp only [Option.some_bind] at h
      unfold Database.delete
      simp only [ht, h]
      rw [dErase_lookup_none idx key h, dictInsert_lookup_eq db.tables table idx ht]

/-- C1 (amended): after any successful `set` the on-disk index of the
written table reflects the in-memory mapping; after `delete` it does so
provided the key was present with a nonempty path whose file existed on
disk. -/
theorem c1_index_reflects (db : Database) (base table key p : String) (v : Json) :
    (∀ db', db.set base table key v = some db' →
      diskIndex db' base table = some (encodeIndex (memIndex db' table))) ∧
    (dlookup (memIndex db table) key = some p → p ≠ "" →
      (dlookup db.disk p).isSome = true →
      diskIndex (db.delete base table key) base table
        = some (encodeIndex (memIndex (db.delete base table key) table))) := by
  constructor
  · intro db' hset
    by_cases hfeas : dirName (keyFilePath base table key)
        ∈ makeDirs db.dirs (keysDirPath base table)
    · rw [set_eq_some db base table key v hfeas] at hset
      injection hset with hrec
      subst hrec
      unfold saveIndex diskIndex memIndex
      simp only [dlookup_dictInsert_self]
    · rw [set_eq_none db base table key v hfeas] at hset
      exact Option.noConfusion hset
  · intro hp hp1 hp2
    cases ht : dlookup db.tables table with
    | none =>
        unfold memIndex at hp
        rw [ht] at hp
        simp [dlookup] at hp
    | some idx =>
        unfold memIndex at hp
        rw [ht] at hp
        simp only [Option.getD_some] at hp
        unfold Database.delete saveIndex diskIndex memIndex
        simp only [ht, hp]
        rw [if_pos ⟨hp1, hp2⟩]
        simp only [dlookup_dictInsert_self, Option.getD_some]

/-- C2 counterexample: with table `/t` and key `/t/index`, the `set` is
a genuine trace (`makedirs("/t/keys")` creates `/t`, the parent of the
value file) in which the value file and the index file are the same
path, so `get` after `set` returns the index object instead of the
stored value. -/
theorem c2_counterexample :
    Database.set ⟨[], [], makeDirs [] "./db/"⟩ "./db/" "/t" "/t/index" (Json.num 1)
      = some dbC2 ∧
    dbC2.get "/t" "/t/index" = some (Json.obj [("/t/index", Json.str "/t/index.json")]) ∧
    dbC2.get "/t" "/t/index" ≠ some (Json.num 1) := by
  refine ⟨rfl, rfl, ?_⟩
  intro hcon
  have h2 : Json.obj [("/t/index", Json.str "/t/index.json")] = Json.num 1 := by
    injection hcon
  exact Json.noConfusion h2

/-- C2 witness for the amended claim, at a concrete slash-free key. -/
theorem c2_witness :
    ("k".data.all (fun c => c != '/') = true) ∧
    ∃ db', Database.set ⟨[], [], []⟩ "./db/" "t" "k" (Json.num 3) = some db' ∧
      db'.get "t" "k" = some (Json.num 3) :=
  ⟨by decide, c2_set_get_roundtrip ⟨[], [], []⟩ "./db/" "t" "k" (Json.num 3) (by decide)⟩

/-- C5 counterexample: for the colliding table `/t`, key `/t/index`, the
`set` is a genuine trace, and after `delete` the path of the value file
still exists on disk (it is the rewritten index file), refuting "the
value file no longer exists". -/
theorem c5_counterexample :
    Database.set ⟨[], [], makeDirs [] "./db/"⟩ "./db/" "/t" "/t/index" (Json.num 1)
      = some dbC5a ∧
    dbC5.get "/t" "/t/index" = none ∧
    dlookup dbC5.disk (keyFilePath "./db/" "/t" "/t/index") = some (Json.obj []) ∧
    dlookup dbC5.disk (keyFilePath "./db/" "/t" "/t/index") ≠ none := by
  refine ⟨rfl, rfl, rfl, ?_⟩
  intro hcon
  exact Option.noConfusion hcon

/-- C5 witness for the amended claim, at a concrete slash-free key. -/
theorem c5_witness :
    ("k".data.all (fun c => c != '/') = true) ∧
    ∃ db', Database.set ⟨[], [], []⟩ "./db/" "t" "k" (Json.num 3) = some db' ∧
      (db'.delete "./db/" "t" "k").get "t" "k" = none ∧
      dlookup ((db'.delete "./db/" "t" "k")).disk (keyFilePath "./db/" "t" "k") = none :=
  ⟨by decide, c5_delete_removes ⟨[], [], []⟩ "./db/" "t" "k" (Json.num 3) (by decide)⟩

/-- C6 witness: deleting an absent key of an existing table is a no-op. -/
theorem c6_witness :
    ((dlookup (Database.tables ⟨[("t", [("k", "p1")])], [("p1", Json.num 5)], []⟩) "t").bind
        (fun idx => dlookup idx "zz") = none) ∧
    Database.delete ⟨[("t", [("k", "p1")])], [("p1", Json.num 5)], []⟩ "./db/" "t" "zz"
      = ⟨[("t", [("k", "p1")])], [("p1", Json.num 5)], []⟩ :=
  ⟨rfl, c6_delete_absent_noop ⟨[("t", [("k", "p1")])], [("p1", Json.num 5)], []⟩ "./db/" "t"
    "zz" rfl⟩

/-- C1 counterexample, a feasible program trace: first `set` stores key
`y` of table `a/keys/x`, whose `makedirs` creates the whole
`./db/a/keys/x/keys` chain; the second `set` stores key `x/keys/y` of
table `a` at the very same value-file path (its parent directory now
exists, so the write succeeds).  Deleting the alias removes the shared
file, leaving table `a`'s index entry dangling; then deleting
`x/keys/y` from `a` succeeds with the key present but does not persist
the index, so `index.json` of table `a` no longer reflects the
in-memory mapping. -/
theorem c1_counterexample :
    Database.set ⟨[], [], makeDirs [] "./db/"⟩ "./db/" "a/keys/x" "y" (Json.num 2)
      = some dbC1a ∧
    dbC1a.set "./db/" "a" "x/keys/y" (Json.num 1) = some dbC1b ∧
    dlookup (memIndex dbC1c "a") "x/keys/y" = some "./db/a/keys/x/keys/y.json" ∧
    memIndex dbC1d "a" = [] ∧
    diskIndex dbC1d "./db/" "a"
      = some (Json.obj [("x/keys/y", Json.str "./db/a/keys/x/keys/y.json")]) ∧
    diskIndex dbC1d "./db/" "a" ≠ some (encodeIndex (memIndex dbC1d "a")) := by
  refine ⟨rfl, rfl, rfl, rfl, rfl, ?_⟩
  intro hcon
  have h2 : Json.obj [("x/keys/y", Json.str "./db/a/keys/x/keys/y.json")] = Json.obj [] := by
    injection hcon
  have h3 : [("x/keys/y", Json.str "./db/a/keys/x/keys/y.json")] = ([] : List (String × Json)) := by
    injection h2
  exact List.noConfusion h3

/-- C1 witness for the amended claim: a successful `set` and a `delete`
of a present key whose file exists, both leaving `index.json` equal to
memory. -/
theorem c1_witness :
    (dlookup (memIndex ⟨[("t", [("k", "p1")])], [("p1", Json.num 5)], []⟩ "t") "k" = some "p1" ∧
      ("p1" : String) ≠ "" ∧
      (dlookup (Database.disk ⟨[("t", [("k", "p1")])], [("p1", Json.num 5)], []⟩) "p1").isSome
        = true) ∧
    Database.set ⟨[("t", [("k", "p1")])], [("p1", Json.num 5)], []⟩ "./db/" "t" "k2"
      (Json.num 7) = some dbC1w ∧
    diskIndex dbC1w "./db/" "t" = some (encodeIndex (memIndex dbC1w "t")) ∧
    diskIndex (Database.delete ⟨[("t", [("k", "p1")])], [("p1", Json.num 5)], []⟩ "./db/" "t"
        "k") "./db/" "t"
      = some (encodeIndex (memIndex (Database.delete ⟨[("t", [("k", "p1")])],
        [("p1", Json.num 5)], []⟩ "./db/" "t" "k") "t")) :=
  ⟨⟨rfl, by decide, rfl⟩, rfl,
    (c1_index_reflects ⟨[("t", [("k", "p1")])], [("p1", Json.num 5)], []⟩ "./db/" "t" "k2" "p1"
      (Json.num 7)).1 dbC1w rfl,
    (c1_index_reflects ⟨[("t", [("k", "p1")])], [("p1", Json.num 5)], []⟩ "./db/" "t" "k" "p1"
      (Json.num 7)).2 rfl (by decide) rfl⟩

/-- C9 (confirmed): `send` writes exactly the status line, the
Content-Type header, a Content-Length header equal to the UTF-8 byte
length of the body, a blank line and the body — in one write — then
drains and closes the stream. -/
theorem c9_send_format (body : String) (code : Nat) (ct : String) (tr : List WEv) :
    Response.send body code ct tr
      = tr ++ [WEv.write (Chunk.str (("HTTP/1.1 " ++ toString code ++ " OK" ++ "\r\n")
          ++ ("Content-Type: " ++ ct ++ "\r\n")
          ++ ("Content-Length: " ++ toString body.utf8ByteSize ++ "\r\n")
          ++ "\r\n" ++ body)), WEv.drain, WEv.close] := by
  unfold Response.send statusLine contentHeaders
  have hs : "HTTP/1.1 " ++ toString code ++ " OK\r\n"
        ++ ("Content-Type: " ++ ct ++ "\r\nContent-Length: "
            ++ toString body.utf8ByteSize ++ "\r\n\r\n") ++ body
      = ("HTTP/1.1 " ++ toString code ++ " OK" ++ "\r\n")
          ++ ("Content-Type: " ++ ct ++ "\r\n")
          ++ ("Content-Length: " ++ toString body.utf8ByteSize ++ "\r\n")
          ++ "\r\n" ++ body := by
    apply String.ext
    simp [String.data_append, List.append_assoc]
  rw [hs]

/-- C7 (amended): `sendFile` on a missing file sends the whole 404
`send` response with body `"File not found"` and then closes again in
the cleanup block (two `close` calls, the second an idempotent no-op);
on success it writes status line, headers and the file bytes, drains
and closes once. -/
theorem c7_sendFile_behaviour (fs : List (String × List Nat)) (path ct : String)
    (tr : List WEv) :
    (dlookup fs path = none →
      Response.sendFile fs path ct tr
        = tr ++ [WEv.write (Chunk.str (statusLine 404
              ++ contentHeaders "text/plain" ("File not found" : String).utf8ByteSize
              ++ "File not found")), WEv.drain, WEv.close, WEv.close]) ∧
    (∀ content, dlookup fs path = some content →
      Response.sendFile fs path ct tr
        = tr ++ [WEv.write (Chunk.str (statusLine 200)),
            WEv.write (Chunk.str (contentHeaders ct content.length)),
            WEv.write (Chunk.bytes content), WEv.drain, WEv.close]) := by
  constructor
  · intro h
    unfold Response.sendFile Response.send
    rw [h]
    simp [List.append_assoc]
  · intro content h
    unfold Response.sendFile
    rw [h]

/-- C7 counterexample: on a missing file the connection's `close` is
invoked twice (once inside `send`, once by the cleanup block), refuting
"the connection is closed exactly once" in all cases. -/
theorem c7_counterexample :
    countClose (Response.sendFile [] "/missing.txt" "text/plain" []) = 2 ∧
    ¬(countClose (Response.sendFile [] "/missing.txt" "text/plain" []) = 1) := by
  exact ⟨rfl, by decide⟩

/-- C7 witness: both branches of the amended claim at concrete inputs. -/
theorem c7_witness :
    (dlookup ([] : List (String × List Nat)) "/missing.txt" = none ∧
      Response.sendFile [] "/missing.txt" "text/plain" []
        = [WEv.write (Chunk.str (statusLine 404
              ++ contentHeaders "text/plain" ("File not found" : String).utf8ByteSize
              ++ "File not found")), WEv.drain, WEv.close, WEv.close]) ∧
    (dlookup [("/f.bin", [104, 105])] "/f.bin" = some [104, 105] ∧
      Response.sendFile [("/f.bin", [104, 105])] "/f.bin" "text/html" []
        = [WEv.write (Chunk.str (statusLine 200)),
            WEv.write (Chunk.str (contentHeaders "text/html" 2)),
            WEv.write (Chunk.bytes [104, 105]), WEv.drain, WEv.close]) :=
  ⟨⟨rfl, (c7_sendFile_behaviour [] "/missing.txt" "text/plain" []).1 rfl⟩,
    ⟨rfl, (c7_sendFile_behaviour [("/f.bin", [104, 105])] "/f.bin" "text/html" []).2
      [104, 105] rfl⟩⟩

/-- C8 (confirmed): an empty read, or a request line splitting into
fewer than three space-separated tokens, closes the connection with
zero bytes written and no error surfaced. -/
theorem c8_malformed_closes (routes : List Route) (data : String) (tr : List WEv)
    (h : data = "" ∨ (splitOnStr " " (parseRequest data).1).length < 3) :
    (Server.handleClient routes data tr).2 = tr ++ [WEv.close] ∧
    ((Server.handleClient routes data tr).1 = HandleResult.closedNoData ∨
      (Server.handleClient routes data tr).1 = HandleResult.closedMalformed) := by
  by_cases hd : data = ""
  · subst hd
    exact ⟨rfl, Or.inl rfl⟩
  · cases h with
    | inl h => exact absurd h hd
    | inr h =>
        unfold Server.handleClient
        simp only []
        rw [if_neg hd, if_pos h]
        exact ⟨rfl, Or.inr rfl⟩

/-- C8 witness: a request without a protocol token has a two-token
request line and is silently dropped. -/
theorem c8_witness :
    ((splitOnStr " " (parseRequest "GET /\r\n\r\n").1).length < 3) ∧
    (Server.handleClient [] "GET /\r\n\r\n" []).2 = [WEv.close] ∧
    ((Server.handleClient [] "GET /\r\n\r\n" []).1 = HandleResult.closedNoData ∨
      (Server.handleClient [] "GET /\r\n\r\n" []).1 = HandleResult.closedMalformed) :=
  ⟨by decide,
    (c8_malformed_closes [] "GET /\r\n\r\n" [] (Or.inr (by decide))).1,
    (c8_malformed_closes [] "GET /\r\n\r\n" [] (Or.inr (by decide))).2⟩

/-- Folding dict assignments over header pairs looks up to the value of
the last pair carrying the key. -/
theorem foldl_dictInsert_lookup (pairs : List (String × String))
    (init : List (String × String)) (k : String) :
    dlookup (pairs.foldl (fun hs e => dictInsert hs e.1 e.2) init) k
      = match lastHeaderValue pairs k with
        | some v => some v
        | none => dlookup init k := by
  induction pairs generalizing init with
  | nil => rfl
  | cons p rest ih =>
      rw [List.foldl_cons, ih, lastHeaderValue]
      cases hrest : lastHeaderValue rest k with
      | some v => rfl
      | none =>
          by_cases hp : p.1 = k
          · rw [if_pos hp, ← hp, dlookup_dictInsert_self]
          · rw [if_neg hp, dlookup_dictInsert_ne _ _ _ _ (fun hh => hp hh.symm)]

/-- C10 (confirmed): the header mapping built by the wire parser binds
each key to the value of the last header line carrying that key (later
occurrences overwrite earlier ones; none are combined or rejected). -/
theorem c10_last_header_wins (text k : String) :
    dlookup (parseRequest text).2.1 k = lastHeaderValue (headerPairs text) k := by
  unfold parseRequest headerPairs
  simp only []
  rw [foldl_dictInsert_lookup]
  cases h : lastHeaderValue
      ((((splitOnStr "\r\n" text).drop 1).takeWhile (fun l => l != "")).filterMap
        parseHeaderLine) k with
  | some v => rfl
  | none => rfl

theorem findRoute_cons_skip (r0 : Route) (rs : List Route) (method path : String)
    (hfail : ¬routeMatches r0 method path) :
    findRoute (r0 :: rs) method path = findRoute rs method path := by
  conv_lhs => unfold findRoute
  by_cases hm : r0.method = method
  · rw [if_pos hm]
    cases hs : segsMatch r0.pattern path.data with
    | some ps => exact absurd ⟨hm, by rw [hs]; rfl⟩ hfail
    | none => rfl
  · rw [if_neg hm]

theorem findRoute_cons_match (r0 : Route) (rs : List Route) (method path : String)
    (ps : List (String × String)) (hm : r0.method = method)
    (hs : segsMatch r0.pattern path.data = some ps) :
    findRoute (r0 :: rs) method path = some (r0.handler, ps) := by
  conv_lhs => unfold findRoute
  rw [if_pos hm, hs]

/-- C3 (confirmed): dispatch returns exactly the first route in
registration order whose method equals the request method and whose
compiled pattern matches the full path (with that route's captures),
and returns nothing exactly when no registered route matches; a route
whose method differs never matches, regardless of path. -/
theorem c3_dispatch_first_match (routes : List Route) (method path : String) :
    (∀ h ps, findRoute routes method path = some (h, ps) ↔
      ∃ pre r post, routes = pre ++ r :: post ∧ r.method = method ∧
        segsMatch r.pattern path.data = some ps ∧ r.handler = h ∧
        ∀ r' ∈ pre, ¬routeMatches r' method path) ∧
    (findRoute routes method path = none ↔
      ∀ r ∈ routes, ¬routeMatches r method path) := by
  induction routes with
  | nil =>
      constructor
      · intro h ps
        constructor
        · intro hcon
          exact Option.noConfusion hcon
        · rintro ⟨pre, r, post, heq, -, -, -, -⟩
          cases pre with
          | nil => exact List.noConfusion heq
          | cons q pre' => exact List.noConfusion heq
      · constructor
        · intro _ r hr
          exact absurd hr (List.not_mem_nil r)
        · intro _
          rfl
  | cons r0 rs ih =>
      by_cases hfail : routeMatches r0 method path
      · obtain ⟨hm, hsome⟩ := hfail
        obtain ⟨ps0, hs⟩ := Option.isSome_iff_exists.mp hsome
        have hfr := findRoute_cons_match r0 rs method path ps0 hm hs
        constructor
        · intro h ps
          constructor
          · intro hval
            rw [hfr] at hval
            injection hval with hpair
            have hh : r0.handler = h := congrArg Prod.fst hpair
            have hps : ps0 = ps := congrArg Prod.snd hpair
            refine ⟨[], r0, rs, rfl, hm, by rw [hs, hps], hh, ?_⟩
            intro r' hr'
            exact absurd hr' (List.not_mem_nil r')
          · rintro ⟨pre, r, post, heq, hmeth, hmatch, hhand, hpre⟩
            cases pre with
            | nil =>
                simp only [List.nil_append] at heq
                injection heq with h1 h2
                rw [hfr]
                rw [← h1] at hmatch hhand
                rw [hs] at hmatch
                injection hmatch with h3
                rw [hhand, h3]
            | cons q pre' =>
                injection heq with h1 h2
                exact absurd (h1 ▸ (⟨hm, hsome⟩ : routeMatches r0 method path))
                  (hpre q (List.mem_cons_self q pre'))
        · constructor
          · intro hcon
            rw [hfr] at hcon
            exact Option.noConfusion hcon
          · intro hall
            exact absurd ⟨hm, hsome⟩ (hall r0 (List.mem_cons_self r0 rs))
      · have hfr := findRoute_cons_skip r0 rs method path hfail
        constructor
        · intro h ps
          rw [hfr]
          constructor
          · intro hval
            obtain ⟨pre, r, post, heq, hmeth, hmatch, hhand, hpre⟩ := (ih.1 h ps).mp hval
            refine ⟨r0 :: pre, r, post, ?_, hmeth, hmatch, hhand, ?_⟩
            · rw [heq]
              rfl
            · intro r' hr'
              cases List.mem_cons.mp hr' with
              | inl h' => rw [h']; exact hfail
              | inr h' => exact hpre r' h'
          · rintro ⟨pre, r, post, heq, hmeth, hmatch, hhand, hpre⟩
            cases pre with
            | nil =>
                simp only [List.nil_append] at heq
                injection heq with h1 h2
                refine absurd (show routeMatches r0 method path from ⟨?_, ?_⟩) hfail
                · rw [h1]
                  exact hmeth
                · rw [h1, hmatch]
                  rfl
            | cons q pre' =>
                injection heq with h1 h2
                exact (ih.1 h ps).mpr ⟨pre', r, post, h2, hmeth, hmatch, hhand,
                  fun r' hr' => hpre r' (List.mem_cons_of_mem q hr')⟩
        · rw [hfr]
          constructor
          · intro hnone r hr
            cases List.mem_cons.mp hr with
            | inl h' => rw [h']; exact hfail
            | inr h' => exact (ih.2.mp hnone) r h'
          · intro hall
            exact ih.2.mpr (fun r hr => hall r (List.mem_cons_of_mem r0 hr))

theorem plainChar_ne_bracket (c : Char) (h : plainChar c = true) : c ≠ '[' := by
  intro hc
  subst hc
  exact absurd h (by decide)

theorem isWordChar_ne_rbracket (c : Char) (h : isWordChar c = true) : c ≠ ']' := by
  intro hc
  subst hc
  exact absurd h (by decide)

theorem compileGo_none_lits (xs rest : List Char) (hxs : ∀ c ∈ xs, c ≠ '[') :
    compileGo none (xs ++ rest) = xs.map Seg.lit ++ compileGo none rest := by
  induction xs with
  | nil => rfl
  | cons c xs' ih =>
      have hc : c ≠ '[' := hxs c (List.mem_cons_self c xs')
      rw [List.cons_append]
      conv_lhs => unfold compileGo
      rw [if_neg hc, ih (fun c2 hc2 => hxs c2 (List.mem_cons_of_mem _ hc2))]
      rfl

theorem compileGo_none_all_lits (xs : List Char) (hxs : ∀ c ∈ xs, c ≠ '[') :
    compileGo none xs = xs.map Seg.lit := by
  have h := compileGo_none_lits xs [] hxs
  rw [List.append_nil] at h
  rw [show compileGo none [] = [] from rfl, List.append_nil] at h
  exact h

theorem compileGo_name (nm : List Char) : ∀ (acc rest : List Char),
    (∀ c ∈ nm, isWordChar c = true) → acc ≠ [] →
    compileGo (some acc) (nm ++ ']' :: rest)
      = Seg.cap (String.mk (acc.reverse ++ nm)) :: compileGo none rest := by
  induction nm with
  | nil =>
      intro acc rest _ hacc
      rw [List.nil_append]
      conv_lhs => unfold compileGo
      rw [if_pos ⟨rfl, hacc⟩, List.append_nil]
  | cons c nm' ih =>
      intro acc rest hnm hacc
      have hw : isWordChar c = true := hnm c (List.mem_cons_self c nm')
      have hcond : ¬(c = ']' ∧ acc ≠ []) := fun hand => isWordChar_ne_rbracket c hw hand.1
      rw [List.cons_append]
      conv_lhs => unfold compileGo
      rw [if_neg hcond, if_pos hw]
      rw [ih (c :: acc) rest (fun c2 h2 => hnm c2 (List.mem_cons_of_mem _ h2))
        (List.cons_ne_nil c acc)]
      rw [List.reverse_cons, List.append_assoc]
      rfl

theorem segsMatch_lit_prefix (xs : List Char) (segs : List Seg) (cs : List Char) :
    segsMatch (xs.map Seg.lit ++ segs) (xs ++ cs) = segsMatch segs cs := by
  induction xs with
  | nil => rfl
  | cons c xs' ih =>
      show (if c = c then segsMatch (xs'.map Seg.lit ++ segs) (xs' ++ cs) else none)
          = segsMatch segs cs
      rw [if_pos rfl]
      exact ih

theorem segsMatch_lits (xs cs : List Char) :
    segsMatch (xs.map Seg.lit) cs
      = if cs = xs ∨ cs = xs ++ ['\n'] then some [] else none := by
  induction xs generalizing cs with
  | nil => rfl
  | cons c xs' ih =>
      cases cs with
      | nil =>
          show (none : Option (List (String × String)))
              = if ([] : List Char) = c :: xs' ∨ ([] : List Char) = (c :: xs') ++ ['\n']
                then some [] else none
          rw [if_neg (by simp)]
      | cons c' cs' =>
          show (if c = c' then segsMatch (xs'.map Seg.lit) cs' else none)
              = if c' :: cs' = c :: xs' ∨ c' :: cs' = (c :: xs') ++ ['\n']
                then some [] else none
          by_cases hc : c = c'
          · subst hc
            rw [if_pos rfl, ih cs']
            exact if_congr (by simp [List.cons.injEq]) rfl rfl
          · have hc' : ¬(c' = c) := fun h => hc h.symm
            rw [if_neg hc, if_neg (by simp [List.cons.injEq, hc'])]

theorem findSome?_countdown {α : Type} (f : Nat → Option α) (m t : Nat) (r : α)
    (ht : t < m) (habove : ∀ j, t < j → j < m → f j = none) (hf : f t = some r) :
    (countdown m).findSome? f = some r := by
  revert ht habove
  induction m with
  | zero =>
      intro ht _
      exact absurd ht (Nat.not_lt_zero t)
  | succ m ih =>
      intro ht habove
      by_cases hm : m = t
      · subst hm
        show (match f m with
          | some b => some b
          | none => (countdown m).findSome? f) = some r
        rw [hf]
      · have ht' : t < m := Nat.lt_of_le_of_ne (Nat.le_of_lt_succ ht) (fun h => hm h.symm)
        have hnone : f m = none := habove m ht' (Nat.lt_succ_self m)
        show (match f m with
          | some b => some b
          | none => (countdown m).findSome? f) = some r
        rw [hnone]
        exact ih ht' (fun j hj hjm => habove j hj (Nat.lt_succ_of_lt hjm))

theorem segsMatch_cap_exact (n : String) (suf v : List Char)
    (hv1 : v ≠ []) (hv2 : v.all (fun c => c != '/') = true) :
    segsMatch (Seg.cap n :: suf.map Seg.lit) (v ++ suf) = some [(n, String.mk v)] := by
  have hvlen : 0 < v.length := List.length_pos.mpr hv1
  show (countdown (v ++ suf).length).findSome? (fun i =>
      if ((v ++ suf).take (i + 1)).all (fun c => c != '/') then
        (segsMatch (suf.map Seg.lit) ((v ++ suf).drop (i + 1))).map
          (fun ps => (n, String.mk ((v ++ suf).take (i + 1))) :: ps)
      else none) = some [(n, String.mk v)]
  apply findSome?_countdown _ _ (v.length - 1)
  · rw [List.length_append]
    omega
  · intro j hj hjm
    rw [List.length_append] at hjm
    have hlen : ((v ++ suf).drop (j + 1)).length < suf.length := by
      rw [List.length_drop, List.length_append]
      omega
    have hnone : segsMatch (suf.map Seg.lit) ((v ++ suf).drop (j + 1)) = none := by
      rw [segsMatch_lits]
      rw [if_neg ?_]
      rintro (hcon | hcon)
      · rw [hcon] at hlen
        exact absurd hlen (lt_irrefl _)
      · have hlc := congrArg List.length hcon
        rw [List.length_append] at hlc
        omega
    by_cases hfilt : (((v ++ suf).take (j + 1)).all (fun c => c != '/')) = true
    · rw [if_pos hfilt, hnone]
      rfl
    · rw [if_neg hfilt]
  · have hidx : v.length - 1 + 1 = v.length := Nat.succ_pred_eq_of_pos hvlen
    rw [hidx, List.take_left, List.drop_left]
    rw [if_pos hv2]
    rw [segsMatch_lits, if_pos (Or.inl rfl)]
    rfl

/-- C4 (confirmed): for a literal path pattern with a bracketed segment
`[name]` (plain literal characters around it, a nonempty word name),
any request path that differs only in the substituted, nonempty,
slash-free segment value matches the route and delivers exactly that
value under `name` in the parameter mapping. -/
theorem c4_bracket_capture (pre name suf v method : String) (hid : Nat)
    (hpre : ∀ c ∈ pre.data, plainChar c = true)
    (hsuf : ∀ c ∈ suf.data, plainChar c = true)
    (hname1 : name ≠ "") (hname2 : ∀ c ∈ name.data, isWordChar c = true)
    (hv1 : v ≠ "") (hv2 : v.data.all (fun c => c != '/') = true) :
    findRoute [⟨method, compile (pre ++ "[" ++ name ++ "]" ++ suf), hid⟩]
        method (pre ++ v ++ suf)
      = some (hid, [(name, v)]) := by
  have hPdata : (pre ++ "[" ++ name ++ "]" ++ suf).data
      = pre.data ++ ('[' :: (name.data ++ (']' :: suf.data))) := by
    simp [String.data_append, List.append_assoc]
  have hpathdata : (pre ++ v ++ suf).data = pre.data ++ (v.data ++ suf.data) := by
    simp [String.data_append, List.append_assoc]
  have hnd : name.data ≠ [] := fun h => hname1 (String.ext (by rw [h]))
  have hvd : v.data ≠ [] := fun h => hv1 (String.ext (by rw [h]))
  have hcompile : compile (pre ++ "[" ++ name ++ "]" ++ suf)
      = pre.data.map Seg.lit ++ (Seg.cap name :: suf.data.map Seg.lit) := by
    unfold compile
    rw [hPdata]
    rw [compileGo_none_lits pre.data _ (fun c hc => plainChar_ne_bracket c (hpre c hc))]
    congr 1
    conv_lhs => unfold compileGo
    rw [if_pos rfl]
    cases hnd2 : name.data with
    | nil => exact absurd hnd2 hnd
    | cons c0 nm' =>
        rw [List.cons_append]
        conv_lhs => unfold compileGo
        rw [if_neg (fun hand => hand.2 rfl)]
        have hw0 : isWordChar c0 = true := hname2 c0 (by rw [hnd2]; exact List.mem_cons_self _ _)
        rw [if_pos hw0]
        rw [compileGo_name nm' [c0] suf.data
          (fun c hc => hname2 c (by rw [hnd2]; exact List.mem_cons_of_mem _ hc))
          (List.cons_ne_nil c0 [])]
        rw [compileGo_none_all_lits suf.data (fun c hc => plainChar_ne_bracket c (hsuf c hc))]
        have hmk : String.mk (([c0] : List Char).reverse ++ nm') = name := by
          rw [show ([c0] : List Char).reverse = [c0] from rfl]
          rw [show ([c0] : List Char) ++ nm' = c0 :: nm' from rfl]
          rw [← hnd2]
        rw [hmk]
  have hmatch : segsMatch (compile (pre ++ "[" ++ name ++ "]" ++ suf))
      (pre ++ v ++ suf).data = some [(name, v)] := by
    rw [hcompile, hpathdata, segsMatch_lit_prefix]
    rw [segsMatch_cap_exact name suf.data v.data hvd hv2]
  exact findRoute_cons_match ⟨method, compile (pre ++ "[" ++ name ++ "]" ++ suf), hid⟩ []
    method (pre ++ v ++ suf) [(name, v)] rfl hmatch

/-- C4 witness: pattern `/items/[id]`, path `/items/42`, capture
`id` bound to `"42"`. -/
theorem c4_witness :
    ((∀ c ∈ ("/items/" : String).data, plainChar c = true) ∧
      ("id" : String) ≠ "" ∧ (∀ c ∈ ("id" : String).data, isWordChar c = true) ∧
      ("42" : String) ≠ "" ∧ ("42" : String).data.all (fun c => c != '/') = true) ∧
    findRoute [⟨"GET", compile "/items/[id]", 0⟩] "GET" "/items/42"
      = some (0, [("id", "42")]) :=
  ⟨⟨by decide, by decide, by decide, by decide, by decide⟩,
    c4_bracket_capture "/items/" "id" "" "42" "GET" 0 (by decide) (by decide) (by decide)
      (by decide) (by decide) (by decide)⟩
